import Mathlib

/-!
Shallow embedding of the ink! attribute-erasure / module-renaming rewriter.

The embedded code consists of two call sites that each contain a private
`InkAttrEraser` visitor over a `syn` syntax tree:

* `Contract::remove_ink_attrs` in `crates/lang/ir/src/ir/contract.rs`
  (construction time), embedded below in namespace `Ink.Contract`;
* `Original::generate_code` in `crates/lang/codegen/src/generator/original.rs`
  (generation time), embedded below in namespace `Ink.Original`.

The visitor overrides exactly two methods of `syn::visit_mut::VisitMut`:

* `visit_attribute_mut`: if `attr.path.is_ident("ink")` holds, the attribute's
  path is replaced by the single segment `doc` (carrying the old path's span)
  and its payload by `TokenStream2::from_str("(inline)")`; otherwise the
  default traversal recurses into the attribute (which mutates nothing, since
  an attribute contains no further attributes or modules);
* `visit_item_mod_mut`: if the running `mod_count` is `0`, the module's
  identifier is replaced by `Ident::new(original_name, module.ident.span())`;
  the counter is then incremented and the default traversal recurses.

Every other node kind is traversed by the default (mutation-free) `syn`
visitors.  The syntax tree is therefore embedded by the node kinds the visitor
distinguishes: attributes, modules (identifier plus optional content, as in
`syn::ItemMod`), and all remaining item kinds collapsed into a generic node
carrying its attributes and nested items in document order.  Fields never
inspected nor mutated by the visitor (visibility, braces, function signatures,
and so on) are constants of the rewrite and are omitted.

Source positions (`proc_macro2::Span`) are abstracted as numbers; token
payloads are abstracted as their text plus the span they carry, since the
rewriter treats payloads opaquely and only ever replaces one wholesale via
`TokenStream2::from_str`, which builds fresh tokens at call-site spans.
-/

namespace Ink

/-- Source position metadata (`proc_macro2::Span`), abstracted as a number. -/
abbrev Span := Nat

/-- The default span carried by freshly fabricated tokens
(`Span::call_site()`), as produced by `TokenStream2::from_str`. -/
def callSite : Span := 0

/-- `syn::Ident`: a name together with its span. -/
structure Ident where
  name : String
  span : Span
deriving DecidableEq

/-- `syn::Path` in mod style, as used for attribute paths: an optional leading
double-colon and a sequence of identifier segments.  Attribute paths are
parsed with `Path::parse_mod_style`, so segments carry no generic arguments
and are plain identifiers. -/
structure Path where
  leadingColon : Bool
  segments : List Ident
deriving DecidableEq

/-- `syn::Path::get_ident`: returns the identifier iff the path is a bare
single-segment path with no leading double-colon. -/
def Path.getIdent (p : Path) : Option Ident :=
  if p.leadingColon then none
  else
    match p.segments with
    | [i] => some i
    | _ => none

/-- `syn::Path::is_ident`: the path is a bare single-segment path whose
identifier spells `s`. -/
def Path.isIdent (p : Path) (s : String) : Bool :=
  match p.getIdent with
  | some i => i.name == s
  | none => false

/-- `syn::spanned::Spanned::span` of a path: on a stable toolchain the joined
span falls back to the span of the path's first token.  The rewriter only
calls this on paths that satisfy `is_ident "ink"`, i.e. on single-segment
paths, where it is exactly the span of the sole segment. -/
def Path.spanOf (p : Path) : Span :=
  match p.segments with
  | i :: _ => i.span
  | [] => callSite

/-- `proc_macro2::TokenStream`, abstracted as its textual content plus the
span its tokens carry.  The rewriter never looks inside a payload: it either
leaves it untouched or replaces it wholesale. -/
structure Tokens where
  content : String
  span : Span
deriving DecidableEq

/-- `TokenStream2::from_str`: fabricates tokens for the given text; the
fabricated tokens carry call-site spans, not any pre-existing span. -/
def tokensFromStr (s : String) : Tokens :=
  { content := s, span := callSite }

/-- `syn::AttrStyle`: outer `#[...]` or inner `#![...]` attribute. -/
inductive AttrStyle where
  | outer
  | inner
deriving DecidableEq

/-- `syn::Attribute`: style, bracket token (abstracted by its span), path and
token payload. -/
structure Attr where
  style : AttrStyle
  bracketSpan : Span
  path : Path
  tokens : Tokens
deriving DecidableEq

/-- The syntax tree as seen by the `InkAttrEraser` visitor: a module item
(`syn::ItemMod`: attributes, identifier, optional braced content) or any
other item kind, collapsed to its attributes and the nested items reachable
inside it (for example items inside a function body), in document order. -/
inductive Item where
  | mod (attrs : List Attr) (ident : Ident) (content : Option (List Item)) : Item
  | plain (attrs : List Attr) (subs : List Item) : Item

/-- `syn::File`, the tree the eraser is run on via `visit_file_mut`: inner
attributes followed by the top-level items. -/
structure File where
  attrs : List Attr
  items : List Item

/-- Modelled from the spec: `ir::Config` is not among the sources (only its
use as `config.original_mod_name()` is).  Per the spec it is the external
configuration collaborator exposing an optional rename-target value for the
stripped module. -/
structure Config where
  originalModName : Option String

/-- Modelled from the spec: `val.get_ident()` on the configured value
succeeds exactly when the value is a syntactically legal bare identifier
(first character a letter or underscore, remaining characters alphanumeric
or underscore, nonempty). -/
def isLegalIdent (s : String) : Bool :=
  match s.toList with
  | [] => false
  | c :: cs => (c.isAlpha || c == '_') && cs.all (fun d => d.isAlphanum || d == '_')

/-- The configuration error: the configured rename identifier is present but
not a legal bare identifier.  In the source this surfaces as the panic
message of `.expect("need a new legal module name for original code")`; the
panic is embedded as an error value. -/
inductive ConfigError where
  | illegalModName
deriving DecidableEq

namespace Contract

/-- `InkAttrEraser::visit_attribute_mut` of `contract.rs` (lines 105-124):
if `attr.path.is_ident("ink")`, the path becomes the single segment `doc`
built with `Ident::new("doc", path.span())`, and the payload becomes
`TokenStream2::from_str("(inline)")`.  Otherwise the default traversal
recurses into the attribute's path, which mutates nothing. -/
def eraseAttr (a : Attr) : Attr :=
  if a.path.isIdent "ink" then
    { a with
      path := { leadingColon := false
                segments := [{ name := "doc", span := a.path.spanOf }] }
      tokens := tokensFromStr "(inline)" }
  else
    a

mutual

/-- The `InkAttrEraser` traversal of `contract.rs` over one item, threading
the visitor state `mod_count` (`c`): on a module, the identifier is replaced
by `Ident::new(original_name, module.ident.span())` when the count is zero,
the count is incremented, and the default traversal recurses into the
module's attributes and content; on any other item the default traversal
visits its attributes and nested items in document order. -/
def eraseItem (nm : String) (c : Nat) : Item → Item × Nat
  | Item.mod attrs id content =>
    let id' := if c = 0 then { name := nm, span := id.span } else id
    match content with
    | none => (Item.mod (attrs.map eraseAttr) id' none, c + 1)
    | some its =>
      let r := eraseItems nm (c + 1) its
      (Item.mod (attrs.map eraseAttr) id' (some r.1), r.2)
  | Item.plain attrs subs =>
    let r := eraseItems nm c subs
    (Item.plain (attrs.map eraseAttr) r.1, r.2)

/-- The `InkAttrEraser` traversal of `contract.rs` over an item sequence in
document order, threading `mod_count`. -/
def eraseItems (nm : String) (c : Nat) : List Item → List Item × Nat
  | [] => ([], c)
  | i :: is =>
    let r := eraseItem nm c i
    let r' := eraseItems nm r.2 is
    (r.1 :: r'.1, r'.2)

end

/-- `eraser.visit_file_mut(&mut tree)` in `contract.rs` (line 136): the
visitor starts with `mod_count == 0` and visits the file's inner attributes
and then its items. -/
def eraseFile (nm : String) (f : File) : File :=
  { attrs := f.attrs.map eraseAttr
    items := (eraseItems nm 0 f.items).1 }

/-- Target-name resolution of `contract.rs` (lines 128-135):
`config.original_mod_name().map_or("original".to_string(), |val|
val.get_ident().expect(...).to_string())`, with the `expect` panic embedded
as an error value. -/
def resolveName (config : Config) : Except ConfigError String :=
  match config.originalModName with
  | none => Except.ok "original"
  | some v =>
    if isLegalIdent v then Except.ok v
    else Except.error ConfigError.illegalModName

/-- `Contract::remove_ink_attrs` (lines 86-138) after the external parse of
the raw token stream into `tree`: the target name is resolved first (the
panic point), and only then is the eraser run over the tree. -/
def remove_ink_attrs (config : Config) (tree : File) : Except ConfigError File :=
  match resolveName config with
  | Except.ok nm => Except.ok (eraseFile nm tree)
  | Except.error e => Except.error e

end Contract

namespace Original

/-- `InkAttrEraser::visit_attribute_mut` of `original.rs` (lines 41-62).  The
method first checks `attr.path.is_ident("trait_definition")` purely to run
`dbg!(&attr)`, which logs and mutates nothing; then, exactly as in
`contract.rs`, an `ink` attribute's path becomes the single segment `doc`
built with `Ident::new("doc", path.span())` and its payload becomes
`TokenStream2::from_str("(inline)")`, while any other attribute is only
recursed into (no mutation). -/
def eraseAttr (a : Attr) : Attr :=
  if a.path.isIdent "ink" then
    { a with
      path := { leadingColon := false
                segments := [{ name := "doc", span := a.path.spanOf }] }
      tokens := tokensFromStr "(inline)" }
  else
    a

mutual

/-- The `InkAttrEraser` traversal of `original.rs` over one item, threading
`mod_count` exactly as `InkAttrEraser::visit_item_mod_mut` there
(lines 65-72) does: rename the module when the count is zero, increment, and
recurse by the default traversal. -/
def eraseItem (nm : String) (c : Nat) : Item → Item × Nat
  | Item.mod attrs id content =>
    let id' := if c = 0 then { name := nm, span := id.span } else id
    match content with
    | none => (Item.mod (attrs.map eraseAttr) id' none, c + 1)
    | some its =>
      let r := eraseItems nm (c + 1) its
      (Item.mod (attrs.map eraseAttr) id' (some r.1), r.2)
  | Item.plain attrs subs =>
    let r := eraseItems nm c subs
    (Item.plain (attrs.map eraseAttr) r.1, r.2)

/-- The `InkAttrEraser` traversal of `original.rs` over an item sequence in
document order, threading `mod_count`. -/
def eraseItems (nm : String) (c : Nat) : List Item → List Item × Nat
  | [] => ([], c)
  | i :: is =>
    let r := eraseItem nm c i
    let r' := eraseItems nm r.2 is
    (r.1 :: r'.1, r'.2)

end

/-- `eraser.visit_file_mut(&mut tree)` in `original.rs` (line 84). -/
def eraseFile (nm : String) (f : File) : File :=
  { attrs := f.attrs.map eraseAttr
    items := (eraseItems nm 0 f.items).1 }

/-- Target-name resolution of `original.rs` (lines 76-83), textually the same
`map_or` / `get_ident` / `expect` chain as in `contract.rs`, with the panic
embedded as an error value. -/
def resolveName (config : Config) : Except ConfigError String :=
  match config.originalModName with
  | none => Except.ok "original"
  | some v =>
    if isLegalIdent v then Except.ok v
    else Except.error ConfigError.illegalModName

/-- `Original::generate_code` (lines 30-86) after the external parse of the
contract's retained raw token stream into `tree`: resolve the target name
from the contract's configuration (the panic point), then run the eraser. -/
def generate_code (config : Config) (tree : File) : Except ConfigError File :=
  match resolveName config with
  | Except.ok nm => Except.ok (eraseFile nm tree)
  | Except.error e => Except.error e

end Original

/-! ## Observations on trees

The following functions collect, in the visitor's document order, the data the
claims speak about: all attributes of a tree, the identifiers of all module
nodes in pre-order, and a skeleton that forgets exactly the fields the eraser
may overwrite (attribute path and payload, module identifier name). -/

mutual

/-- All attributes of an item, in document order (a node's own attributes
before the ones nested inside it). -/
def itemAttrs : Item → List Attr
  | Item.mod attrs _ none => attrs
  | Item.mod attrs _ (some its) => attrs ++ itemsAttrs its
  | Item.plain attrs subs => attrs ++ itemsAttrs subs

/-- All attributes of an item sequence, in document order. -/
def itemsAttrs : List Item → List Attr
  | [] => []
  | i :: is => itemAttrs i ++ itemsAttrs is

end

/-- All attributes of a file: inner attributes, then the items' attributes in
document order. -/
def fileAttrs (f : File) : List Attr :=
  f.attrs ++ itemsAttrs f.items

mutual

/-- The identifiers of all module nodes inside an item, in pre-order (a
module's own identifier before those of the modules nested in it). -/
def itemModIdents : Item → List Ident
  | Item.mod _ id none => [id]
  | Item.mod _ id (some its) => id :: itemsModIdents its
  | Item.plain _ subs => itemsModIdents subs

/-- The identifiers of all module nodes of an item sequence, in pre-order. -/
def itemsModIdents : List Item → List Ident
  | [] => []
  | i :: is => itemModIdents i ++ itemsModIdents is

end

/-- The identifiers of all module nodes of a file, in pre-order: exactly the
order in which `visit_item_mod_mut` meets them. -/
def fileModIdents (f : File) : List Ident :=
  itemsModIdents f.items

/-- Rename the first identifier of a pre-order module list to `nm`, keeping
its span; the empty list is left empty. -/
def renameFirst (nm : String) : List Ident → List Ident
  | [] => []
  | id :: rest => { name := nm, span := id.span } :: rest

/-- Forget the fields of an attribute the eraser may overwrite (path and
payload), keeping its style and bracket. -/
def skelAttr (a : Attr) : Attr :=
  { a with
    path := { leadingColon := false, segments := [] }
    tokens := { content := "", span := callSite } }

mutual

/-- Forget, all over an item, exactly the fields the eraser may overwrite:
every attribute's path and payload, and every module identifier's name (its
span is kept).  Two items with equal skeletons have the same item structure
in the same order, with the same attribute count at each node. -/
def skelItem : Item → Item
  | Item.mod attrs id none =>
    Item.mod (attrs.map skelAttr) { name := "", span := id.span } none
  | Item.mod attrs id (some its) =>
    Item.mod (attrs.map skelAttr) { name := "", span := id.span } (some (skelItems its))
  | Item.plain attrs subs =>
    Item.plain (attrs.map skelAttr) (skelItems subs)

/-- Skeleton of an item sequence, elementwise. -/
def skelItems : List Item → List Item
  | [] => []
  | i :: is => skelItem i :: skelItems is

end

/-- Skeleton of a file. -/
def skelFile (f : File) : File :=
  { attrs := f.attrs.map skelAttr
    items := skelItems f.items }

/-- An attribute whose namespace path's leading segment spells `s` (the
reading of "reserved-namespace attribute" that also covers multi-segment
paths such as `ink::trait_definition`). -/
def attrLeads (s : String) (a : Attr) : Bool :=
  match a.path.segments with
  | i :: _ => i.name == s
  | [] => false

/-- The names of a file's module identifiers, in pre-order. -/
def fileModNames (f : File) : List String :=
  (fileModIdents f).map Ident.name

/-- Rename the first element of a pre-order module-name list. -/
def renameFirstName (nm : String) : List String → List String
  | [] => []
  | _ :: rest => nm :: rest

/-- A sample input for the multi-segment reserved attribute: a single
non-module item carrying the attribute `#[ink::trait_definition]`
(path segments `ink` and `trait_definition`). -/
def exScopedInkFile : File :=
  { attrs := []
    items := [Item.plain
      [{ style := AttrStyle.outer
         bracketSpan := 1
         path := { leadingColon := false
                   segments := [{ name := "ink", span := 2 },
                     { name := "trait_definition", span := 3 }] }
         tokens := { content := "", span := 4 } }] [] ] }

/-- A sample reserved attribute `#[ink(storage)]` whose payload tokens carry
the (nonzero) source span `7`. -/
def exSpannedInkAttr : Attr :=
  { style := AttrStyle.outer
    bracketSpan := 1
    path := { leadingColon := false, segments := [{ name := "ink", span := 5 }] }
    tokens := { content := "(storage)", span := 7 } }

/-- A sample file holding one module named `m` with empty content. -/
def exModFile : File :=
  { attrs := []
    items := [Item.mod [] { name := "m", span := 3 } (some [])] }

/-- A sample reserved inner attribute `#![ink(event)]`. -/
def exEventInkAttr : Attr :=
  { style := AttrStyle.inner
    bracketSpan := 2
    path := { leadingColon := false, segments := [{ name := "ink", span := 4 }] }
    tokens := { content := "(event)", span := 6 } }

/-! ## A mutual induction principle for items and item sequences -/

/-- Mutual induction over `Item` and `List Item`, proved by strong induction
on sizes. -/
theorem item_induction (P : Item → Prop) (Q : List Item → Prop)
    (hmn : ∀ a id, P (Item.mod a id none))
    (hms : ∀ a id is, Q is → P (Item.mod a id (some is)))
    (hp : ∀ a is, Q is → P (Item.plain a is))
    (hnil : Q [])
    (hcons : ∀ i is, P i → Q is → Q (i :: is)) :
    (∀ i, P i) ∧ (∀ is, Q is) := by
  have key : ∀ n : Nat,
      (∀ i : Item, sizeOf i < n → P i) ∧ (∀ is : List Item, sizeOf is < n → Q is) := by
    intro n
    induction n with
    | zero =>
      exact ⟨fun i hi => absurd hi (Nat.not_lt_zero _),
        fun is hi => absurd hi (Nat.not_lt_zero _)⟩
    | succ n ih =>
      refine ⟨fun i hi => ?_, fun is hi => ?_⟩
      · cases i with
        | mod a id content =>
          cases content with
          | none => exact hmn a id
          | some its =>
            refine hms a id its (ih.2 its ?_)
            have hs : sizeOf its < sizeOf (Item.mod a id (some its)) := by
              simp
              try omega
            omega
        | plain a subs =>
          refine hp a subs (ih.2 subs ?_)
          have hs : sizeOf subs < sizeOf (Item.plain a subs) := by
            simp
            try omega
          omega
      · cases is with
        | nil => exact hnil
        | cons i is =>
          have hs1 : sizeOf i < sizeOf (i :: is) := by
            simp
            try omega
          have hs2 : sizeOf is < sizeOf (i :: is) := by
            simp
            try omega
          exact hcons i is (ih.1 i (by omega)) (ih.2 is (by omega))
  exact ⟨fun i => (key (sizeOf i + 1)).1 i (Nat.lt_succ_self _),
    fun is => (key (sizeOf is + 1)).2 is (Nat.lt_succ_self _)⟩

/-! ## Characterization lemmas for the construction-time eraser -/

/-- The attributes of the rewritten tree are exactly the attributes of the
input tree, in order, each passed through `eraseAttr`; the visitor state does
not influence attribute handling. -/
theorem contract_erase_attrs :
    (∀ i : Item, ∀ nm c, itemAttrs (Contract.eraseItem nm c i).1 =
        (itemAttrs i).map Contract.eraseAttr) ∧
    (∀ is : List Item, ∀ nm c, itemsAttrs (Contract.eraseItems nm c is).1 =
        (itemsAttrs is).map Contract.eraseAttr) := by
  refine item_induction _ _ ?_ ?_ ?_ ?_ ?_
  · intro a id nm c
    simp [Contract.eraseItem, itemAttrs]
  · intro a id is ih nm c
    simp [Contract.eraseItem, itemAttrs, ih]
  · intro a is ih nm c
    simp [Contract.eraseItem, itemAttrs, ih]
  · intro nm c
    simp [Contract.eraseItems, itemsAttrs]
  · intro i is ihP ihQ nm c
    simp [Contract.eraseItems, itemsAttrs, ihP, ihQ]

/-- The visitor's final `mod_count` is its initial value plus the number of
module nodes in the subtree it traversed. -/
theorem contract_erase_count :
    (∀ i : Item, ∀ nm c, (Contract.eraseItem nm c i).2 =
        c + (itemModIdents i).length) ∧
    (∀ is : List Item, ∀ nm c, (Contract.eraseItems nm c is).2 =
        c + (itemsModIdents is).length) := by
  refine item_induction _ _ ?_ ?_ ?_ ?_ ?_
  · intro a id nm c
    simp [Contract.eraseItem, itemModIdents]
  · intro a id is ih nm c
    simp [Contract.eraseItem, itemModIdents, ih]
    omega
  · intro a is ih nm c
    simp [Contract.eraseItem, itemModIdents, ih]
  · intro nm c
    simp [Contract.eraseItems, itemsModIdents]
  · intro i is ihP ihQ nm c
    simp [Contract.eraseItems, itemsModIdents, ihP, ihQ]
    omega

/-- Renaming the head of a nonempty prefix renames the head of the whole
concatenation. -/
theorem renameFirst_append_ne (nm : String) (a b : List Ident) (h : a ≠ []) :
    renameFirst nm (a ++ b) = renameFirst nm a ++ b := by
  cases a with
  | nil => exact absurd rfl h
  | cons id rest => simp [renameFirst]

/-- The pre-order module identifiers of the rewritten tree: when the visitor
arrives with `mod_count = 0` the first module identifier (if any) is renamed
to `nm` keeping its span, and when it arrives with a positive count every
module identifier is kept. -/
theorem contract_erase_modIdents :
    (∀ i : Item, ∀ nm c, itemModIdents (Contract.eraseItem nm c i).1 =
        if c = 0 then renameFirst nm (itemModIdents i) else itemModIdents i) ∧
    (∀ is : List Item, ∀ nm c, itemsModIdents (Contract.eraseItems nm c is).1 =
        if c = 0 then renameFirst nm (itemsModIdents is) else itemsModIdents is) := by
  refine item_induction _ _ ?_ ?_ ?_ ?_ ?_
  · intro a id nm c
    by_cases hc : c = 0 <;>
      simp [hc, Contract.eraseItem, itemModIdents, renameFirst]
  · intro a id is ih nm c
    have hrec := ih nm (c + 1)
    rw [if_neg (Nat.succ_ne_zero c)] at hrec
    by_cases hc : c = 0
    · subst hc
      simp only [Nat.zero_add] at hrec
      simp [Contract.eraseItem, itemModIdents, renameFirst, hrec]
    · simp [hc, Contract.eraseItem, itemModIdents, renameFirst, hrec]
  · intro a is ih nm c
    simp [Contract.eraseItem, itemModIdents, ih]
  · intro nm c
    simp [Contract.eraseItems, itemsModIdents, renameFirst]
  · intro i is ihP ihQ nm c
    have hcount := contract_erase_count.1 i nm c
    by_cases hc : c = 0
    · subst hc
      rcases hmi : itemModIdents i with _ | ⟨id, rest⟩
      · have h2 : (Contract.eraseItem nm 0 i).2 = 0 := by
          rw [hcount, hmi]
          simp
        have h1 := ihP nm 0
        rw [hmi] at h1
        simp [renameFirst] at h1
        simp [Contract.eraseItems, itemsModIdents, h1, h2, hmi, ihQ]
      · have h2 : (Contract.eraseItem nm 0 i).2 ≠ 0 := by
          rw [hcount, hmi]
          simp
        have h1 := ihP nm 0
        rw [hmi] at h1
        have h3 := ihQ nm (Contract.eraseItem nm 0 i).2
        rw [if_neg h2] at h3
        simp only [Contract.eraseItems, itemsModIdents, h1, h3, hmi]
        rw [renameFirst_append_ne nm (id :: rest) (itemsModIdents is) (by simp)]
        simp [renameFirst]
    · have h2 : (Contract.eraseItem nm c i).2 ≠ 0 := by
        rw [hcount]
        omega
      have h1 := ihP nm c
      rw [if_neg hc] at h1
      have h3 := ihQ nm (Contract.eraseItem nm c i).2
      rw [if_neg h2] at h3
      simp [Contract.eraseItems, itemsModIdents, h1, h3, hc]

/-- `skelAttr` is blind to `eraseAttr`: attribute rewriting never changes an
attribute's style or bracket. -/
theorem skelAttr_eraseAttr (a : Attr) :
    skelAttr (Contract.eraseAttr a) = skelAttr a := by
  by_cases h : a.path.isIdent "ink" <;> simp [Contract.eraseAttr, h, skelAttr]

/-- The rewrite preserves the skeleton of the tree: item structure and order,
per-node attribute counts with their styles and brackets, and the spans of
module identifiers. -/
theorem contract_erase_skel :
    (∀ i : Item, ∀ nm c, skelItem (Contract.eraseItem nm c i).1 = skelItem i) ∧
    (∀ is : List Item, ∀ nm c, skelItems (Contract.eraseItems nm c is).1 = skelItems is) := by
  refine item_induction _ _ ?_ ?_ ?_ ?_ ?_
  · intro a id nm c
    by_cases hc : c = 0 <;>
      simp [hc, Contract.eraseItem, skelItem, skelAttr_eraseAttr]
  · intro a id is ih nm c
    by_cases hc : c = 0 <;>
      simp [hc, Contract.eraseItem, skelItem, skelAttr_eraseAttr, ih]
  · intro a is ih nm c
    simp [Contract.eraseItem, skelItem, skelAttr_eraseAttr, ih]
  · intro nm c
    simp [Contract.eraseItems, skelItems]
  · intro i is ihP ihQ nm c
    simp [Contract.eraseItems, skelItems, ihP, ihQ]

/-- Erasing an already erased attribute changes nothing: the replacement path
`doc` is no longer the reserved identifier `ink`, and unmatched attributes
stay unmatched. -/
theorem contract_eraseAttr_idem (a : Attr) :
    Contract.eraseAttr (Contract.eraseAttr a) = Contract.eraseAttr a := by
  by_cases h : a.path.isIdent "ink"
  · have h1 : Contract.eraseAttr a =
        { a with
          path := { leadingColon := false
                    segments := [{ name := "doc", span := a.path.spanOf }] }
          tokens := tokensFromStr "(inline)" } := by
      simp [Contract.eraseAttr, h]
    have h2 : Path.isIdent
        { leadingColon := false
          segments := [{ name := "doc", span := a.path.spanOf }] } "ink" = false := by
      simp [Path.isIdent, Path.getIdent]
    rw [h1, Contract.eraseAttr, h2]
    simp
  · simp [Contract.eraseAttr, h]

/-- A second traversal with the same target name and the same initial count
reproduces the first traversal's output and final count exactly. -/
theorem contract_erase_idem :
    (∀ i : Item, ∀ nm c, Contract.eraseItem nm c (Contract.eraseItem nm c i).1 =
        Contract.eraseItem nm c i) ∧
    (∀ is : List Item, ∀ nm c, Contract.eraseItems nm c (Contract.eraseItems nm c is).1 =
        Contract.eraseItems nm c is) := by
  refine item_induction _ _ ?_ ?_ ?_ ?_ ?_
  · intro a id nm c
    by_cases hc : c = 0 <;>
      simp [hc, Contract.eraseItem, List.map_map, Function.comp_def,
        contract_eraseAttr_idem]
  · intro a id is ih nm c
    have hrec := ih nm (c + 1)
    by_cases hc : c = 0
    · subst hc
      simp only [Nat.zero_add] at hrec
      simp [Contract.eraseItem, List.map_map, Function.comp_def,
        contract_eraseAttr_idem, hrec]
    · simp [hc, Contract.eraseItem, List.map_map, Function.comp_def,
        contract_eraseAttr_idem, hrec]
  · intro a is ih nm c
    simp [Contract.eraseItem, List.map_map, Function.comp_def,
      contract_eraseAttr_idem, ih]
  · intro nm c
    simp [Contract.eraseItems]
  · intro i is ihP ihQ nm c
    simp [Contract.eraseItems, ihP, ihQ]

/-! ## The generation-time eraser coincides with the construction-time one -/

/-- The two `visit_attribute_mut` implementations are the same function (the
extra `dbg!` probe in `original.rs` mutates nothing). -/
theorem original_eraseAttr_eq : Original.eraseAttr = Contract.eraseAttr := rfl

/-- The two traversals coincide on every item and item sequence, for every
target name and visitor state. -/
theorem original_erase_eq :
    (∀ i : Item, ∀ nm c, Original.eraseItem nm c i = Contract.eraseItem nm c i) ∧
    (∀ is : List Item, ∀ nm c, Original.eraseItems nm c is = Contract.eraseItems nm c is) := by
  refine item_induction _ _ ?_ ?_ ?_ ?_ ?_
  · intro a id nm c
    simp [Original.eraseItem, Contract.eraseItem, original_eraseAttr_eq]
  · intro a id is ih nm c
    simp [Original.eraseItem, Contract.eraseItem, original_eraseAttr_eq, ih]
  · intro a is ih nm c
    simp [Original.eraseItem, Contract.eraseItem, original_eraseAttr_eq, ih]
  · intro nm c
    simp [Original.eraseItems, Contract.eraseItems]
  · intro i is ihP ihQ nm c
    simp [Original.eraseItems, Contract.eraseItems, ihP, ihQ]

/-- The two name resolutions are the same function. -/
theorem original_resolveName_eq : Original.resolveName = Contract.resolveName := rfl

/-- The two file-level rewrites coincide. -/
theorem original_eraseFile_eq (nm : String) (f : File) :
    Original.eraseFile nm f = Contract.eraseFile nm f := by
  simp [Original.eraseFile, Contract.eraseFile, original_eraseAttr_eq,
    original_erase_eq.2]

/-! ## File-level corollaries -/

/-- File-level attribute characterization: the stripped file's attributes are
the input's attributes, in order, each passed through `eraseAttr`. -/
theorem contract_eraseFile_attrs (nm : String) (f : File) :
    fileAttrs (Contract.eraseFile nm f) = (fileAttrs f).map Contract.eraseAttr := by
  simp [fileAttrs, Contract.eraseFile, contract_erase_attrs.2]

/-- File-level module-identifier characterization: the visitor starts with
`mod_count = 0`, so exactly the head of the pre-order module list is renamed
(keeping its span) and nothing else changes. -/
theorem contract_eraseFile_modIdents (nm : String) (f : File) :
    fileModIdents (Contract.eraseFile nm f) = renameFirst nm (fileModIdents f) := by
  have h := contract_erase_modIdents.2 f.items nm 0
  simp only [if_pos rfl] at h
  simp [fileModIdents, Contract.eraseFile, h]

/-- File-level skeleton preservation. -/
theorem contract_eraseFile_skel (nm : String) (f : File) :
    skelFile (Contract.eraseFile nm f) = skelFile f := by
  simp [skelFile, Contract.eraseFile, contract_erase_skel.2, List.map_map,
    Function.comp_def, skelAttr_eraseAttr]

/-- An erased attribute never has the bare path `ink`: either it was just
replaced by the path `doc`, or it did not have the bare path `ink` to begin
with. -/
theorem contract_eraseAttr_not_ink (a : Attr) :
    (Contract.eraseAttr a).path.isIdent "ink" = false := by
  by_cases h : a.path.isIdent "ink"
  · have h1 : Contract.eraseAttr a =
        { a with
          path := { leadingColon := false
                    segments := [{ name := "doc", span := a.path.spanOf }] }
          tokens := tokensFromStr "(inline)" } := by
      simp [Contract.eraseAttr, h]
    rw [h1]
    simp [Path.isIdent, Path.getIdent]
  · have h1 : Contract.eraseAttr a = a := by
      simp [Contract.eraseAttr, h]
    rw [h1]
    exact eq_false_of_ne_true h

/-- A non-matching attribute passes through `eraseAttr` unchanged. -/
theorem contract_eraseAttr_frame (a : Attr) (h : a.path.isIdent "ink" = false) :
    Contract.eraseAttr a = a := by
  simp [Contract.eraseAttr, h]

/-- File-level module-name characterization, at the level of name strings. -/
theorem contract_eraseFile_modNames (nm : String) (f : File) :
    fileModNames (Contract.eraseFile nm f) = renameFirstName nm (fileModNames f) := by
  unfold fileModNames
  rw [contract_eraseFile_modIdents]
  cases fileModIdents f <;> simp [renameFirst, renameFirstName]

/-! ## The claims -/

/-- C1: for every raw module tree and every configuration, the
construction-time rewrite (`Contract::remove_ink_attrs`) and the
generation-time rewrite (`Original::generate_code`) produce identical
stripped output (identical trees serialize to token-identical streams). -/
theorem claim_C1 (config : Config) (tree : File) :
    Original.generate_code config tree = Contract.remove_ink_attrs config tree := by
  unfold Original.generate_code Contract.remove_ink_attrs
  rw [original_resolveName_eq]
  cases Contract.resolveName config with
  | ok nm => simp [original_eraseFile_eq]
  | error e => rfl

/-- C2, counterexample: the claim promises that every attribute whose
*leading* path segment is `ink` — explicitly including multi-segment paths
such as `ink::trait_definition` — is erased.  The code matches with
`attr.path.is_ident("ink")`, which only accepts bare single-segment paths,
so the attribute `#[ink::trait_definition]` survives the rewrite untouched
and the output still contains an attribute with leading segment `ink`. -/
theorem cex_C2 :
    Contract.remove_ink_attrs { originalModName := none } exScopedInkFile =
      Except.ok exScopedInkFile ∧
    (fileAttrs exScopedInkFile).any (attrLeads "ink") = true :=
  ⟨rfl, rfl⟩

/-- C2, amended: every attribute whose path is exactly the bare
single-segment identifier `ink` is overwritten to the neutral marker, so the
output tree contains zero attributes whose path is the bare identifier
`ink`; multi-segment paths with leading segment `ink` are not matched. -/
theorem claim_C2 (nm : String) (f : File) :
    (fileAttrs (Contract.eraseFile nm f)).all
      (fun a => !(Path.isIdent a.path "ink")) = true := by
  rw [contract_eraseFile_attrs, List.all_eq_true]
  intro b hb
  rw [List.mem_map] at hb
  obtain ⟨a, _, rfl⟩ := hb
  simp [contract_eraseAttr_not_ink]

/-- C3: exactly the first module in pre-order is renamed to the resolved
target name (keeping its span) and every other module keeps its name; on a
tree with zero modules (`fileModIdents f = []`, hence `renameFirst nm [] =
[]`) no rename happens and the total rewrite still completes. -/
theorem claim_C3 (nm : String) (f : File) :
    fileModIdents (Contract.eraseFile nm f) = renameFirst nm (fileModIdents f) :=
  contract_eraseFile_modIdents nm f

/-- C4: a configured rename value that is not a legal bare identifier makes
both operations fail with the configuration error; the name is resolved
before the eraser runs, so no stripped tree is produced (the result carries
no tree, in any state). -/
theorem claim_C4 (v : String) (f : File) (h : isLegalIdent v = false) :
    Contract.remove_ink_attrs { originalModName := some v } f =
        Except.error ConfigError.illegalModName ∧
    Original.generate_code { originalModName := some v } f =
        Except.error ConfigError.illegalModName := by
  constructor <;>
    simp [Contract.remove_ink_attrs, Original.generate_code,
      Contract.resolveName, Original.resolveName, h]

/-- C4, witness: the illegal rename target `1bad` on the empty file. -/
theorem wit_C4 :
    isLegalIdent "1bad" = false ∧
    Contract.remove_ink_attrs { originalModName := some "1bad" }
        { attrs := [], items := [] } =
      Except.error ConfigError.illegalModName :=
  ⟨by decide, (claim_C4 "1bad" { attrs := [], items := [] } (by decide)).1⟩

/-- C5: the rewrite is idempotent for a fixed resolved target name: a second
application returns the first application's output unchanged. -/
theorem claim_C5 (nm : String) (f : File) :
    Contract.eraseFile nm (Contract.eraseFile nm f) = Contract.eraseFile nm f := by
  have hitems := contract_erase_idem.2 f.items nm 0
  simp [Contract.eraseFile, List.map_map, Function.comp_def,
    contract_eraseAttr_idem, hitems]

/-- C6: the output has as many attributes as the input, and the same items
in the same order — the skeleton (item structure and order, per-node
attribute count with styles and brackets, module-identifier spans) is
untouched; only attribute path/payload fields and module-identifier names
can change, in place. -/
theorem claim_C6 (nm : String) (f : File) :
    (fileAttrs (Contract.eraseFile nm f)).length = (fileAttrs f).length ∧
    skelFile (Contract.eraseFile nm f) = skelFile f :=
  ⟨by rw [contract_eraseFile_attrs]; simp, contract_eraseFile_skel nm f⟩

/-- C7: the output's attributes are the input's attributes passed one by one
through the per-attribute rewrite, and that rewrite is the identity on every
attribute that does not match the reserved path — the traversal recurses
into such attributes but mutates nothing there. -/
theorem claim_C7 (nm : String) (f : File) :
    fileAttrs (Contract.eraseFile nm f) = (fileAttrs f).map Contract.eraseAttr ∧
    ∀ a : Attr, Path.isIdent a.path "ink" = false → Contract.eraseAttr a = a :=
  ⟨contract_eraseFile_attrs nm f, fun a h => contract_eraseAttr_frame a h⟩

/-- C7, witness: a `#[derive(Debug)]` attribute is untouched. -/
theorem wit_C7 :
    fileAttrs (Contract.eraseFile "original" { attrs := [], items := [] }) =
      (fileAttrs { attrs := [], items := [] }).map Contract.eraseAttr ∧
    Contract.eraseAttr
        { style := AttrStyle.outer
          bracketSpan := 8
          path := { leadingColon := false, segments := [{ name := "derive", span := 9 }] }
          tokens := { content := "(Debug)", span := 9 } } =
      { style := AttrStyle.outer
        bracketSpan := 8
        path := { leadingColon := false, segments := [{ name := "derive", span := 9 }] }
        tokens := { content := "(Debug)", span := 9 } } :=
  ⟨(claim_C7 "original" { attrs := [], items := [] }).1,
    (claim_C7 "original" { attrs := [], items := [] }).2
      { style := AttrStyle.outer
        bracketSpan := 8
        path := { leadingColon := false, segments := [{ name := "derive", span := 9 }] }
        tokens := { content := "(Debug)", span := 9 } } (by decide)⟩

/-- C8, counterexample: the claim promises that the original attribute's
position metadata is preserved both on the replacement's path and on its
argument payload.  The replacement payload is built by
`TokenStream2::from_str("(inline)")`, whose tokens carry call-site spans:
for a reserved attribute whose payload tokens carry source span `7`, the
replacement payload's span is `0`, not `7`. -/
theorem cex_C8 :
    Path.isIdent exSpannedInkAttr.path "ink" = true ∧
    (Contract.eraseAttr exSpannedInkAttr).tokens.span ≠ exSpannedInkAttr.tokens.span :=
  ⟨by decide, by decide⟩

/-- C8, amended: for every replaced attribute the original path's span is
preserved on the replacement's path (its single `doc` segment carries it),
while the replacement's argument payload is fabricated by `from_str` and
carries the default call-site position, not the original payload's span. -/
theorem claim_C8 (a : Attr) (h : Path.isIdent a.path "ink" = true) :
    (Contract.eraseAttr a).path.segments.map Ident.span = [a.path.spanOf] ∧
    (Contract.eraseAttr a).tokens.span = callSite := by
  simp [Contract.eraseAttr, h, tokensFromStr]

/-- C8, witness: the replacement of `exSpannedInkAttr` keeps the path span
`5` and gets the call-site payload span. -/
theorem wit_C8 :
    Path.isIdent exSpannedInkAttr.path "ink" = true ∧
    (Contract.eraseAttr exSpannedInkAttr).path.segments.map Ident.span =
      [exSpannedInkAttr.path.spanOf] ∧
    (Contract.eraseAttr exSpannedInkAttr).tokens.span = callSite :=
  ⟨by decide, (claim_C8 exSpannedInkAttr (by decide)).1,
    (claim_C8 exSpannedInkAttr (by decide)).2⟩

/-- C9: with no configured rename value the operation succeeds and the first
module of the output is named the literal `original`; with a configured
legal identifier the operation succeeds and the first module is renamed to
exactly that identifier. -/
theorem claim_C9 (f : File) (v : String) :
    (Contract.remove_ink_attrs { originalModName := none } f =
        Except.ok (Contract.eraseFile "original" f) ∧
      fileModNames (Contract.eraseFile "original" f) =
        renameFirstName "original" (fileModNames f)) ∧
    (isLegalIdent v = true →
      Contract.remove_ink_attrs { originalModName := some v } f =
          Except.ok (Contract.eraseFile v f) ∧
        fileModNames (Contract.eraseFile v f) =
          renameFirstName v (fileModNames f)) := by
  refine ⟨⟨?_, contract_eraseFile_modNames "original" f⟩,
    fun hv => ⟨?_, contract_eraseFile_modNames v f⟩⟩
  · simp [Contract.remove_ink_attrs, Contract.resolveName]
  · simp [Contract.remove_ink_attrs, Contract.resolveName, hv]

/-- C9, witness: the legal rename target `plain` on a file with one module
named `m`. -/
theorem wit_C9 :
    isLegalIdent "plain" = true ∧
    Contract.remove_ink_attrs { originalModName := some "plain" } exModFile =
      Except.ok (Contract.eraseFile "plain" exModFile) ∧
    fileModNames (Contract.eraseFile "plain" exModFile) =
      renameFirstName "plain" (fileModNames exModFile) :=
  ⟨by decide, ((claim_C9 exModFile "plain").2 (by decide)).1,
    ((claim_C9 exModFile "plain").2 (by decide)).2⟩

/-- C10: the neutral marker substituted for a matching attribute is exactly
the path `doc` (one segment, no leading double-colon) with payload tokens
`(inline)`, while the attribute's style and brackets are left unchanged —
the erased attribute becomes `#[doc(inline)]` (or `#![doc(inline)]`) in
place. -/
theorem claim_C10 (a : Attr) (h : Path.isIdent a.path "ink" = true) :
    (Contract.eraseAttr a).style = a.style ∧
    (Contract.eraseAttr a).bracketSpan = a.bracketSpan ∧
    (Contract.eraseAttr a).path.leadingColon = false ∧
    (Contract.eraseAttr a).path.segments.map Ident.name = ["doc"] ∧
    (Contract.eraseAttr a).tokens.content = "(inline)" := by
  simp [Contract.eraseAttr, h, tokensFromStr]

/-- C10, witness: the inner reserved attribute `#![ink(event)]` becomes
`#![doc(inline)]` with style and bracket untouched. -/
theorem wit_C10 :
    Path.isIdent exEventInkAttr.path "ink" = true ∧
    (Contract.eraseAttr exEventInkAttr).path.segments.map Ident.name = ["doc"] ∧
    (Contract.eraseAttr exEventInkAttr).tokens.content = "(inline)" :=
  ⟨by decide, (claim_C10 exEventInkAttr (by decide)).2.2.2.1,
    (claim_C10 exEventInkAttr (by decide)).2.2.2.2⟩

end Ink
